import Mathlib

/-!
Verification of the `sales-bonus` repository (`src/main.js`).

The source is a single synchronous JavaScript module with three functions:
`calculateSimpleRevenue`, `calculateBonusByProfit`, and `analyzeSalesData`.
We embed it shallowly: JS numbers become `ℚ` (all arithmetic in the source is
exact on the modelled inputs), insertion-ordered JS objects used as maps
(`products_sold`) become association lists, `Object.fromEntries` indexes
become last-occurrence lookups, `Array.prototype.sort` (stable since ES2019)
with comparator `(a, b) => b.k - a.k` becomes a stable descending insertion
sort, and the `throw` paths become `Except String`.  Absent / ill-typed
arguments (`!data`, non-array collections, non-callable strategies) are
modelled with `Option`.
-/

namespace SalesBonus

/-- An input seller record: `{ id, first_name, last_name }`. -/
structure Seller where
  id : String
  first_name : String
  last_name : String
deriving Repr, DecidableEq

/-- An input product record: `{ sku, purchase_price }`. -/
structure Product where
  sku : String
  purchase_price : ℚ
deriving Repr, DecidableEq

/-- One line item of a purchase record: `{ sku, sale_price, quantity, discount }`. -/
structure LineItem where
  sku : String
  sale_price : ℚ
  quantity : ℚ
  discount : ℚ
deriving Repr, DecidableEq

/-- One purchase record: `{ seller_id, total_amount, items }`. -/
structure PurchaseRecord where
  seller_id : String
  total_amount : ℚ
  items : List LineItem
deriving Repr, DecidableEq

/-- The dataset: `{ sellers, products, purchase_records }`. -/
structure SalesData where
  sellers : List Seller
  products : List Product
  purchase_records : List PurchaseRecord
deriving Repr, DecidableEq

/-- The intermediate per-seller aggregate built in ШАГ 3 of the source
(`sellerStats` entries).  `products_sold` is a JS object used as an
insertion-ordered map `sku -> quantity`, modelled as an association list. -/
structure SellerStat where
  id : String
  name : String
  revenue : ℚ
  profit : ℚ
  sales_count : ℕ
  products_sold : List (String × ℚ)
deriving Repr, DecidableEq

/-- One `{ sku, quantity }` entry of a seller's `top_products`. -/
structure TopProduct where
  sku : String
  quantity : ℚ
deriving Repr, DecidableEq

/-- The output record produced by the final `map` of `analyzeSalesData`. -/
structure SellerReport where
  seller_id : String
  name : String
  revenue : ℚ
  profit : ℚ
  sales_count : ℕ
  top_products : List TopProduct
  bonus : ℚ
deriving Repr, DecidableEq

/-- The `options` bundle.  A missing / non-callable strategy is `none`. -/
structure Options where
  calculateRevenue : Option (LineItem → Product → ℚ)
  calculateBonus : Option (ℕ → ℕ → SellerStat → ℚ)

/-- `calculateSimpleRevenue(purchase, _product)`:
`sale_price * quantity * (1 - discount / 100)`. -/
def calculateSimpleRevenue (purchase : LineItem) (_product : Product) : ℚ :=
  let discountCoef : ℚ := 1 - purchase.discount / 100
  purchase.sale_price * purchase.quantity * discountCoef

/-- `calculateBonusByProfit(index, total, seller)`: 15% for rank 0, 10% for
ranks 1 and 2, 0 for the last rank, 5% otherwise — tested in this exact
branch order. -/
def calculateBonusByProfit (index total : ℕ) (seller : SellerStat) : ℚ :=
  if index = 0 then seller.profit * (15 / 100)
  else if index = 1 ∨ index = 2 then seller.profit * (10 / 100)
  else if index = total - 1 then 0
  else seller.profit * (5 / 100)

/-- The zero-initialised aggregate built by `data.sellers.map(...)` in ШАГ 3:
name is first and last name joined by a space, totals zero, empty map. -/
def initStat (s : Seller) : SellerStat :=
  { id := s.id
    name := s.first_name ++ " " ++ s.last_name
    revenue := 0
    profit := 0
    sales_count := 0
    products_sold := [] }

/-- `sellerIndex[sid]` resolved to a position: `Object.fromEntries` keeps the
last entry for a duplicated key, so this returns the index of the LAST seller
whose `id` matches, if any. -/
def lastIdxWithId : List Seller → String → Option ℕ
  | [], _ => none
  | s :: rest, sid =>
    match lastIdxWithId rest sid with
    | some i => some (i + 1)
    | none => if s.id = sid then some 0 else none

/-- `productIndex[sku]`: the LAST product whose `sku` matches, if any
(`Object.fromEntries` last-entry-wins). -/
def productFor : List Product → String → Option Product
  | [], _ => none
  | p :: rest, sku =>
    match productFor rest sku with
    | some q => some q
    | none => if p.sku = sku then some p else none

/-- `seller.products_sold[item.sku] += item.quantity`, creating the key with 0
first when absent: an existing key is bumped in place, a new key is appended. -/
def addQty : List (String × ℚ) → String → ℚ → List (String × ℚ)
  | [], sku, q => [(sku, q)]
  | (k, v) :: rest, sku, q =>
    if k = sku then (k, v + q) :: rest else (k, v) :: addQty rest sku q

/-- The body of the inner `record.items.forEach`: skip the item when its
product is unresolved, else add `revenue - cost` to profit and bump
`products_sold`. -/
def processItem (calcRev : LineItem → Product → ℚ) (products : List Product)
    (s : SellerStat) (item : LineItem) : SellerStat :=
  match productFor products item.sku with
  | none => s
  | some product =>
    let cost := product.purchase_price * item.quantity
    let revenue := calcRev item product
    let profit := revenue - cost
    { s with
      profit := s.profit + profit
      products_sold := addQty s.products_sold item.sku item.quantity }

/-- Everything the outer `forEach` body does to the resolved seller's
aggregate: `sales_count += 1`, `revenue += total_amount`, then the item loop. -/
def processRecordSeller (calcRev : LineItem → Product → ℚ) (products : List Product)
    (r : PurchaseRecord) (s : SellerStat) : SellerStat :=
  let s1 := { s with sales_count := s.sales_count + 1, revenue := s.revenue + r.total_amount }
  r.items.foldl (processItem calcRev products) s1

/-- In-place update of one list cell (the mutation of the aggregate the
seller index points at). -/
def modifyIdx (f : α → α) : List α → ℕ → List α
  | [], _ => []
  | a :: l, 0 => f a :: l
  | a :: l, n + 1 => a :: modifyIdx f l n

/-- The body of the outer `data.purchase_records.forEach`: resolve the seller
via the index; if unresolved skip the whole record, else update its aggregate. -/
def processRecord (calcRev : LineItem → Product → ℚ) (products : List Product)
    (sellers : List Seller) (stats : List SellerStat) (r : PurchaseRecord) :
    List SellerStat :=
  match lastIdxWithId sellers r.seller_id with
  | none => stats
  | some i => modifyIdx (processRecordSeller calcRev products r) stats i

/-- ШАГ 3 + ЭТАП 3 ШАГ 1: build the zero aggregates and run the double loop. -/
def aggregate (calcRev : LineItem → Product → ℚ) (data : SalesData) : List SellerStat :=
  data.purchase_records.foldl
    (processRecord calcRev data.products data.sellers)
    (data.sellers.map initStat)

/-- One step of the stable descending sort: the new element goes after every
element already placed whose key is `≥` its own (JS comparator
`(a, b) => b.k - a.k` returns `≤ 0` there). -/
def insertDescBy (key : α → ℚ) (x : α) : List α → List α
  | [] => [x]
  | y :: ys => if key y < key x then x :: y :: ys else y :: insertDescBy key x ys

/-- Stable sort by descending key, as `Array.prototype.sort` with comparator
`(a, b) => b.k - a.k` (stable per ES2019). -/
def sortDescBy (key : α → ℚ) (l : List α) : List α :=
  l.foldl (fun acc x => insertDescBy key x acc) []

/-- `top_products`: entries of `products_sold`, mapped to `{sku, quantity}`,
stable-sorted by descending quantity, first 10 kept. -/
def topProductsOf (s : SellerStat) : List TopProduct :=
  (sortDescBy TopProduct.quantity (s.products_sold.map fun kv => TopProduct.mk kv.1 kv.2)).take 10

/-- `+v.toFixed(2)` on an exact value: ECMAScript `Number.prototype.toFixed`
emits the sign of `v`, then formats `|v|` with the integer `n` minimising
`|n / 100 - |v||` and taking the larger `n` on a tie; the unary `+` parses the
string back.  On `ℚ` this is: round half-up on the absolute value, re-attach
the sign. -/
def toFixed2 (v : ℚ) : ℚ :=
  if v < 0 then -((⌊(-v) * 100 + 1 / 2⌋ : ℚ) / 100)
  else (⌊v * 100 + 1 / 2⌋ : ℚ) / 100

/-- The final `map` body (ШАГ 4): project one ranked aggregate to its report,
rounding revenue, profit and bonus with `+v.toFixed(2)`. -/
def projectSeller (calcBonus : ℕ → ℕ → SellerStat → ℚ) (total i : ℕ)
    (s : SellerStat) : SellerReport :=
  { seller_id := s.id
    name := s.name
    revenue := toFixed2 s.revenue
    profit := toFixed2 s.profit
    sales_count := s.sales_count
    top_products := topProductsOf s
    bonus := toFixed2 (calcBonus i total s) }

/-- ЭТАП 3 ШАГ 2–4 on already-aggregated stats: sort by descending profit
(stable), then assign bonuses / top products by rank and project with
rounding. -/
def buildReports (calcBonus : ℕ → ℕ → SellerStat → ℚ) (stats : List SellerStat) :
    List SellerReport :=
  let sorted := sortDescBy SellerStat.profit stats
  sorted.enum.map fun p => projectSeller calcBonus sorted.length p.1 p.2

/-- `analyzeSalesData(data, options)`.  `none` models an absent or ill-typed
argument (`!data`, a non-array collection, a non-object `options`, a
non-callable strategy); the three `throw`s become `Except.error` with the
source's messages. -/
def analyzeSalesData (dataOpt : Option SalesData) (optionsOpt : Option Options) :
    Except String (List SellerReport) :=
  match dataOpt with
  | none => .error "Некорректные входные данные"
  | some data =>
    if data.sellers.isEmpty || data.products.isEmpty || data.purchase_records.isEmpty then
      .error "Некорректные входные данные"
    else
      match optionsOpt with
      | none => .error "Некорректные опции"
      | some opts =>
        match opts.calculateRevenue, opts.calculateBonus with
        | some calcRev, some calcBonus =>
          .ok (buildReports calcBonus (aggregate calcRev data))
        | _, _ => .error "Не переданы функции расчёта"

/-- The profit contribution of one line item: `0` when its product is
unresolved, else `calcRev item product - purchase_price * quantity`. -/
def itemProfit (calcRev : LineItem → Product → ℚ) (products : List Product)
    (item : LineItem) : ℚ :=
  match productFor products item.sku with
  | none => 0
  | some p => calcRev item p - p.purchase_price * item.quantity

/-- The profit contribution of one attributed purchase record. -/
def recordProfit (calcRev : LineItem → Product → ℚ) (products : List Product)
    (r : PurchaseRecord) : ℚ :=
  (r.items.map (itemProfit calcRev products)).sum

/-- The purchase records whose `seller_id` resolves (via the index) to
position `i` of the seller list. -/
def recordsFor (sellers : List Seller) (i : ℕ) (rs : List PurchaseRecord) :
    List PurchaseRecord :=
  rs.filter fun r => decide (lastIdxWithId sellers r.seller_id = some i)

/-- Folding a list of records into a single seller's aggregate. -/
def applyRecords (calcRev : LineItem → Product → ℚ) (products : List Product)
    (rs : List PurchaseRecord) (s : SellerStat) : SellerStat :=
  rs.foldl (fun s r => processRecordSeller calcRev products r s) s

/-- The inputs that pass validation: both arguments present and well-typed,
all three collections non-empty, both strategies callable. -/
def ValidInput (dataOpt : Option SalesData) (optionsOpt : Option Options) : Prop :=
  ∃ data opts, dataOpt = some data ∧ optionsOpt = some opts ∧
    data.sellers ≠ [] ∧ data.products ≠ [] ∧ data.purchase_records ≠ [] ∧
    opts.calculateRevenue.isSome ∧ opts.calculateBonus.isSome

/-- A dummy aggregate carrying only a profit, for exercising the bonus
strategy directly. -/
def statOfProfit (p : ℚ) : SellerStat :=
  { id := "s", name := "s", revenue := 0, profit := p, sales_count := 0, products_sold := [] }

/-- The ordering the sort establishes: the earlier element's key is at least
the later one's. -/
def KeyGE (key : α → ℚ) (a b : α) : Prop := key b ≤ key a

/-- The number of purchase records whose `seller_id` resolves to some seller. -/
def resolvableCount (sellers : List Seller) (rs : List PurchaseRecord) : ℕ :=
  (rs.filter fun r => (lastIdxWithId sellers r.seller_id).isSome).length

/-- A concrete seller used to instantiate universally quantified results. -/
def sellerW : Seller := { id := "s1", first_name := "Ann", last_name := "Lee" }

/-- A concrete product (cost price 10). -/
def productW : Product := { sku := "p1", purchase_price := 10 }

/-- A concrete line item: sale price 20, quantity 2, discount 50%. -/
def itemW : LineItem := { sku := "p1", sale_price := 20, quantity := 2, discount := 50 }

/-- A concrete purchase record for `sellerW` with stated total 40. -/
def recordW : PurchaseRecord := { seller_id := "s1", total_amount := 40, items := [itemW] }

/-- A concrete well-formed dataset. -/
def dataW : SalesData :=
  { sellers := [sellerW], products := [productW], purchase_records := [recordW] }

/-- The default options bundle: both documented strategies supplied. -/
def optsW : Options :=
  { calculateRevenue := some calculateSimpleRevenue
    calculateBonus := some calculateBonusByProfit }

/-- A dataset whose two sellers share the id `"a"` (duplicate-key scenario). -/
def dataDupW : SalesData :=
  { sellers :=
      [{ id := "a", first_name := "x", last_name := "y" },
       { id := "a", first_name := "z", last_name := "w" }]
    products := [productW]
    purchase_records := [{ seller_id := "a", total_amount := 40, items := [itemW] }] }

/-! ## Theorems -/

/-- **C1.** `calculateBonusByProfit`: rank 0 earns 15% of own profit, ranks 1
and 2 earn 10%, the last rank (when not rank 0, 1 or 2) earns 0, every other
rank earns 5%, with top-performer / top-3 / last-place / default precedence;
hence a single seller earns 15%, and five sellers with profits
[1000, 800, 600, 400, 200] earn bonuses [150, 80, 60, 20, 0]. -/
theorem calculateBonusByProfit_spec (index total : ℕ) (seller : SellerStat)
    (htotal : 1 ≤ total) :
    (index = 0 → calculateBonusByProfit index total seller = seller.profit * (15 / 100)) ∧
    (index = 1 ∨ index = 2 →
      calculateBonusByProfit index total seller = seller.profit * (10 / 100)) ∧
    (index = total - 1 → index ≠ 0 → index ≠ 1 → index ≠ 2 →
      calculateBonusByProfit index total seller = 0) ∧
    (index ≠ 0 → index ≠ 1 → index ≠ 2 → index ≠ total - 1 →
      calculateBonusByProfit index total seller = seller.profit * (5 / 100)) ∧
    (calculateBonusByProfit 0 1 (statOfProfit 7) = 7 * (15 / 100)) ∧
    ((List.range 5).map
        (fun i => calculateBonusByProfit i 5 (statOfProfit ((([1000, 800, 600, 400, 200] : List ℚ).get? i).getD 0)))
      = [150, 80, 60, 20, 0]) := by
  refine ⟨?_, ?_, ?_, ?_,
    by norm_num [calculateBonusByProfit, statOfProfit],
    by simp [List.range_succ, calculateBonusByProfit, statOfProfit]; norm_num⟩
  · intro h; simp [calculateBonusByProfit, h]
  · intro h
    rcases h with h | h <;> simp [calculateBonusByProfit, h]
  · intro h h0 h1 h2
    unfold calculateBonusByProfit
    rw [if_neg h0, if_neg (by rintro (rfl | rfl) <;> [exact h1 rfl; exact h2 rfl]), if_pos h]
  · intro h0 h1 h2 h3
    unfold calculateBonusByProfit
    rw [if_neg h0, if_neg (by rintro (rfl | rfl) <;> [exact h1 rfl; exact h2 rfl]), if_neg h3]

/-! ### The stable descending sort -/

theorem insertDescBy_perm (key : α → ℚ) (x : α) (l : List α) :
    List.Perm (insertDescBy key x l) (x :: l) := by
  induction l with
  | nil => exact List.Perm.refl _
  | cons y ys ih =>
    unfold insertDescBy
    by_cases h : key y < key x
    · rw [if_pos h]
    · rw [if_neg h]
      exact (ih.cons y).trans (List.Perm.swap x y ys)

theorem mem_insertDescBy (key : α → ℚ) {x z : α} {l : List α} :
    z ∈ insertDescBy key x l ↔ z = x ∨ z ∈ l := by
  simpa using (insertDescBy_perm key x l).mem_iff

theorem insertDescBy_pairwise (key : α → ℚ) {l : List α}
    (hl : l.Pairwise (KeyGE key)) (x : α) :
    (insertDescBy key x l).Pairwise (KeyGE key) := by
  induction l with
  | nil => simp [insertDescBy, List.pairwise_singleton]
  | cons y ys ih =>
    rw [List.pairwise_cons] at hl
    obtain ⟨hy, hys⟩ := hl
    unfold insertDescBy
    by_cases h : key y < key x
    · rw [if_pos h]
      refine List.pairwise_cons.2 ⟨?_, List.pairwise_cons.2 ⟨hy, hys⟩⟩
      intro z hz
      rcases List.mem_cons.1 hz with rfl | hz
      · exact le_of_lt h
      · exact le_trans (hy z hz) (le_of_lt h)
    · rw [if_neg h]
      refine List.pairwise_cons.2 ⟨?_, ih hys⟩
      intro z hz
      rcases (mem_insertDescBy key).1 hz with rfl | hz
      · exact not_lt.1 h
      · exact hy z hz

theorem insertDescBy_filter_ne (key : α → ℚ) {x : α} {q : ℚ} (hx : key x ≠ q)
    (l : List α) :
    (insertDescBy key x l).filter (fun a => decide (key a = q))
      = l.filter (fun a => decide (key a = q)) := by
  induction l with
  | nil => simp [insertDescBy, hx]
  | cons y ys ih =>
    unfold insertDescBy
    by_cases h : key y < key x
    · rw [if_pos h]
      simp [List.filter_cons, hx]
    · rw [if_neg h]
      simp only [List.filter_cons]
      rw [ih]

theorem insertDescBy_filter_eq (key : α → ℚ) {x : α} {q : ℚ} (hx : key x = q)
    {l : List α} (hl : l.Pairwise (KeyGE key)) :
    (insertDescBy key x l).filter (fun a => decide (key a = q))
      = l.filter (fun a => decide (key a = q)) ++ [x] := by
  induction l with
  | nil => simp [insertDescBy, hx]
  | cons y ys ih =>
    rw [List.pairwise_cons] at hl
    obtain ⟨hy, hys⟩ := hl
    unfold insertDescBy
    by_cases h : key y < key x
    · rw [if_pos h]
      have hyq : key y ≠ q := ne_of_lt (hx ▸ h)
      have hysnil : ys.filter (fun a => decide (key a = q)) = [] := by
        rw [List.filter_eq_nil_iff]
        intro z hz
        simpa using ne_of_lt (lt_of_le_of_lt (hy z hz) (hx ▸ h))
      simp [List.filter_cons, hx, hyq, hysnil]
    · rw [if_neg h]
      simp only [List.filter_cons]
      rw [ih hys]
      by_cases hyq : key y = q <;> simp [hyq]

theorem sortAux_perm (key : α → ℚ) (l acc : List α) :
    List.Perm (l.foldl (fun acc x => insertDescBy key x acc) acc) (acc ++ l) := by
  induction l generalizing acc with
  | nil => simp
  | cons x xs ih =>
    simp only [List.foldl_cons]
    refine (ih (insertDescBy key x acc)).trans ?_
    refine ((insertDescBy_perm key x acc).append_right xs).trans ?_
    exact List.perm_middle.symm

theorem sortAux_pairwise (key : α → ℚ) (l : List α) {acc : List α}
    (hacc : acc.Pairwise (KeyGE key)) :
    (l.foldl (fun acc x => insertDescBy key x acc) acc).Pairwise (KeyGE key) := by
  induction l generalizing acc with
  | nil => simpa
  | cons x xs ih => exact ih (insertDescBy_pairwise key hacc x)

theorem sortAux_filter (key : α → ℚ) (q : ℚ) (l : List α) {acc : List α}
    (hacc : acc.Pairwise (KeyGE key)) :
    (l.foldl (fun acc x => insertDescBy key x acc) acc).filter
        (fun a => decide (key a = q))
      = acc.filter (fun a => decide (key a = q))
        ++ l.filter (fun a => decide (key a = q)) := by
  induction l generalizing acc with
  | nil => simp
  | cons x xs ih =>
    simp only [List.foldl_cons]
    rw [ih (insertDescBy_pairwise key hacc x)]
    by_cases hx : key x = q
    · rw [insertDescBy_filter_eq key hx hacc, List.filter_cons]
      simp [hx]
    · rw [insertDescBy_filter_ne key hx, List.filter_cons]
      simp [hx]

theorem sortDescBy_perm (key : α → ℚ) (l : List α) : List.Perm (sortDescBy key l) l := by
  simpa [sortDescBy] using sortAux_perm key l []

theorem sortDescBy_pairwise (key : α → ℚ) (l : List α) :
    (sortDescBy key l).Pairwise (KeyGE key) :=
  sortAux_pairwise key l List.Pairwise.nil

theorem sortDescBy_chain (key : α → ℚ) (l : List α) :
    (sortDescBy key l).Chain' (KeyGE key) :=
  (sortDescBy_pairwise key l).chain'

theorem sortDescBy_filter (key : α → ℚ) (q : ℚ) (l : List α) :
    (sortDescBy key l).filter (fun a => decide (key a = q))
      = l.filter (fun a => decide (key a = q)) := by
  simpa [sortDescBy] using sortAux_filter key q l List.Pairwise.nil

theorem sortDescBy_length (key : α → ℚ) (l : List α) :
    (sortDescBy key l).length = l.length :=
  (sortDescBy_perm key l).length_eq

/-! ### Rounding -/

theorem toFixed2_of_nonneg {v : ℚ} (h : 0 ≤ v) :
    toFixed2 v = (⌊v * 100 + 1 / 2⌋ : ℚ) / 100 := by
  rw [toFixed2, if_neg (not_lt.2 h)]

theorem toFixed2_of_neg {v : ℚ} (h : v < 0) :
    toFixed2 v = -((⌊(-v) * 100 + 1 / 2⌋ : ℚ) / 100) := by
  rw [toFixed2, if_pos h]

theorem toFixed2_zero : toFixed2 0 = 0 := by
  rw [toFixed2_of_nonneg le_rfl]
  have h : ⌊(0 : ℚ) * 100 + 1 / 2⌋ = 0 := by
    rw [show (0 : ℚ) * 100 + 1 / 2 = 1 / 2 by norm_num]
    rw [Int.floor_eq_zero_iff]
    constructor <;> norm_num
  rw [h]
  norm_num

theorem toFixed2_neg (v : ℚ) : toFixed2 (-v) = -toFixed2 v := by
  rcases lt_trichotomy v 0 with h | rfl | h
  · rw [toFixed2_of_neg h, toFixed2_of_nonneg (by linarith : (0 : ℚ) ≤ -v), neg_neg]
  · simp [toFixed2_zero]
  · rw [toFixed2_of_nonneg (le_of_lt h), toFixed2_of_neg (by linarith : -v < 0), neg_neg]

theorem toFixed2_hundredths (v : ℚ) : ∃ n : ℤ, toFixed2 v = (n : ℚ) / 100 := by
  rcases lt_or_le v 0 with h | h
  · refine ⟨-⌊(-v) * 100 + 1 / 2⌋, ?_⟩
    rw [toFixed2_of_neg h]
    push_cast
    ring
  · exact ⟨⌊v * 100 + 1 / 2⌋, toFixed2_of_nonneg h⟩

theorem toFixed2_close_of_nonneg {v : ℚ} (h : 0 ≤ v) : |toFixed2 v - v| ≤ 1 / 200 := by
  rw [toFixed2_of_nonneg h]
  have h1 : (⌊v * 100 + 1 / 2⌋ : ℚ) ≤ v * 100 + 1 / 2 := Int.floor_le _
  have h2 : v * 100 + 1 / 2 - 1 < (⌊v * 100 + 1 / 2⌋ : ℚ) := Int.sub_one_lt_floor _
  rw [abs_le]
  constructor <;> linarith

theorem toFixed2_close (v : ℚ) : |toFixed2 v - v| ≤ 1 / 200 := by
  rcases le_or_lt 0 v with h | h
  · exact toFixed2_close_of_nonneg h
  · have hc := toFixed2_close_of_nonneg (by linarith : (0 : ℚ) ≤ -v)
    rw [toFixed2_neg] at hc
    have he : -toFixed2 v - -v = -(toFixed2 v - v) := by ring
    rw [he, abs_neg] at hc
    exact hc

theorem toFixed2_mono : Monotone toFixed2 := by
  intro a b hab
  rcases le_or_lt 0 a with ha | ha
  · have hb : 0 ≤ b := le_trans ha hab
    rw [toFixed2_of_nonneg ha, toFixed2_of_nonneg hb]
    have hf := Int.floor_le_floor (show a * 100 + 1 / 2 ≤ b * 100 + 1 / 2 by linarith)
    have hc : ((⌊a * 100 + 1 / 2⌋ : ℚ)) ≤ ((⌊b * 100 + 1 / 2⌋ : ℚ)) := by exact_mod_cast hf
    have := (div_le_div_right (show (0 : ℚ) < 100 by norm_num)).2 hc
    linarith
  · rcases le_or_lt 0 b with hb | hb
    · have h1 : toFixed2 a ≤ 0 := by
        rw [toFixed2_of_neg ha]
        have hz : (0 : ℤ) ≤ ⌊(-a) * 100 + 1 / 2⌋ := Int.le_floor.2 (by push_cast; linarith)
        have hz2 : (0 : ℚ) ≤ (⌊(-a) * 100 + 1 / 2⌋ : ℚ) := by exact_mod_cast hz
        have := div_nonneg hz2 (show (0 : ℚ) ≤ 100 by norm_num)
        linarith
      have h2 : 0 ≤ toFixed2 b := by
        rw [toFixed2_of_nonneg hb]
        have hz : (0 : ℤ) ≤ ⌊b * 100 + 1 / 2⌋ := Int.le_floor.2 (by push_cast; linarith)
        have hz2 : (0 : ℚ) ≤ (⌊b * 100 + 1 / 2⌋ : ℚ) := by exact_mod_cast hz
        exact div_nonneg hz2 (by norm_num)
      linarith
    · rw [toFixed2_of_neg ha, toFixed2_of_neg hb]
      have hf := Int.floor_le_floor
        (show (-b) * 100 + 1 / 2 ≤ (-a) * 100 + 1 / 2 by linarith)
      have hc : ((⌊(-b) * 100 + 1 / 2⌋ : ℚ)) ≤ ((⌊(-a) * 100 + 1 / 2⌋ : ℚ)) := by
        exact_mod_cast hf
      have := (div_le_div_right (show (0 : ℚ) < 100 by norm_num)).2 hc
      linarith

/-! ### List cell update and the two indexes -/

theorem modifyIdx_length (f : α → α) (l : List α) (i : ℕ) :
    (modifyIdx f l i).length = l.length := by
  induction l generalizing i with
  | nil => rfl
  | cons a l ih =>
    cases i with
    | zero => rfl
    | succ n => simp [modifyIdx, ih]

theorem modifyIdx_get_self (f : α → α) (l : List α) (i : ℕ) :
    (modifyIdx f l i)[i]? = Option.map f l[i]? := by
  induction l generalizing i with
  | nil => cases i <;> rfl
  | cons a l ih =>
    cases i with
    | zero => simp [modifyIdx]
    | succ n => simpa [modifyIdx] using ih n

theorem modifyIdx_get_ne (f : α → α) (l : List α) {i j : ℕ} (h : i ≠ j) :
    (modifyIdx f l j)[i]? = l[i]? := by
  induction l generalizing i j with
  | nil => cases j <;> rfl
  | cons a l ih =>
    cases j with
    | zero =>
      cases i with
      | zero => exact absurd rfl h
      | succ m => simp [modifyIdx]
    | succ n =>
      cases i with
      | zero => simp [modifyIdx]
      | succ m => simpa [modifyIdx] using ih (fun hm => h (by rw [hm]))

theorem lastIdxWithId_lt {sellers : List Seller} {sid : String} {i : ℕ}
    (h : lastIdxWithId sellers sid = some i) : i < sellers.length := by
  induction sellers generalizing i with
  | nil => simp [lastIdxWithId] at h
  | cons s rest ih =>
    rw [lastIdxWithId] at h
    cases hr : lastIdxWithId rest sid with
    | some j =>
      rw [hr] at h
      cases h
      simpa using Nat.succ_lt_succ (ih hr)
    | none =>
      rw [hr] at h
      by_cases hs : s.id = sid
      · rw [if_pos hs] at h
        cases h
        simp
      · rw [if_neg hs] at h
        cases h

/-! ### Aggregation -/

theorem processItem_of_none {calcRev : LineItem → Product → ℚ} {products : List Product}
    {item : LineItem} (h : productFor products item.sku = none) (s : SellerStat) :
    processItem calcRev products s item = s := by
  rw [processItem, h]

theorem processItem_of_some {calcRev : LineItem → Product → ℚ} {products : List Product}
    {item : LineItem} {p : Product} (h : productFor products item.sku = some p)
    (s : SellerStat) :
    processItem calcRev products s item =
      { s with
        profit := s.profit + (calcRev item p - p.purchase_price * item.quantity)
        products_sold := addQty s.products_sold item.sku item.quantity } := by
  rw [processItem, h]

theorem processItem_sales_count (calcRev : LineItem → Product → ℚ)
    (products : List Product) (s : SellerStat) (item : LineItem) :
    (processItem calcRev products s item).sales_count = s.sales_count := by
  cases h : productFor products item.sku with
  | none => rw [processItem_of_none h]
  | some p => rw [processItem_of_some h]

theorem processItem_revenue (calcRev : LineItem → Product → ℚ)
    (products : List Product) (s : SellerStat) (item : LineItem) :
    (processItem calcRev products s item).revenue = s.revenue := by
  cases h : productFor products item.sku with
  | none => rw [processItem_of_none h]
  | some p => rw [processItem_of_some h]

theorem processItem_id (calcRev : LineItem → Product → ℚ)
    (products : List Product) (s : SellerStat) (item : LineItem) :
    (processItem calcRev products s item).id = s.id := by
  cases h : productFor products item.sku with
  | none => rw [processItem_of_none h]
  | some p => rw [processItem_of_some h]

theorem processItem_name (calcRev : LineItem → Product → ℚ)
    (products : List Product) (s : SellerStat) (item : LineItem) :
    (processItem calcRev products s item).name = s.name := by
  cases h : productFor products item.sku with
  | none => rw [processItem_of_none h]
  | some p => rw [processItem_of_some h]

theorem processItem_profit (calcRev : LineItem → Product → ℚ)
    (products : List Product) (s : SellerStat) (item : LineItem) :
    (processItem calcRev products s item).profit
      = s.profit + itemProfit calcRev products item := by
  cases h : productFor products item.sku with
  | none => rw [processItem_of_none h, itemProfit, h]; ring
  | some p => rw [processItem_of_some h, itemProfit, h]

theorem foldl_processItem_sales_count (calcRev : LineItem → Product → ℚ)
    (products : List Product) (items : List LineItem) (s : SellerStat) :
    (items.foldl (processItem calcRev products) s).sales_count = s.sales_count := by
  induction items generalizing s with
  | nil => rfl
  | cons item items ih =>
    simp only [List.foldl_cons]
    rw [ih, processItem_sales_count]

theorem foldl_processItem_revenue (calcRev : LineItem → Product → ℚ)
    (products : List Product) (items : List LineItem) (s : SellerStat) :
    (items.foldl (processItem calcRev products) s).revenue = s.revenue := by
  induction items generalizing s with
  | nil => rfl
  | cons item items ih =>
    simp only [List.foldl_cons]
    rw [ih, processItem_revenue]

theorem foldl_processItem_id (calcRev : LineItem → Product → ℚ)
    (products : List Product) (items : List LineItem) (s : SellerStat) :
    (items.foldl (processItem calcRev products) s).id = s.id := by
  induction items generalizing s with
  | nil => rfl
  | cons item items ih =>
    simp only [List.foldl_cons]
    rw [ih, processItem_id]

theorem foldl_processItem_name (calcRev : LineItem → Product → ℚ)
    (products : List Product) (items : List LineItem) (s : SellerStat) :
    (items.foldl (processItem calcRev products) s).name = s.name := by
  induction items generalizing s with
  | nil => rfl
  | cons item items ih =>
    simp only [List.foldl_cons]
    rw [ih, processItem_name]

theorem foldl_processItem_profit (calcRev : LineItem → Product → ℚ)
    (products : List Product) (items : List LineItem) (s : SellerStat) :
    (items.foldl (processItem calcRev products) s).profit
      = s.profit + (items.map (itemProfit calcRev products)).sum := by
  induction items generalizing s with
  | nil => simp
  | cons item items ih =>
    simp only [List.foldl_cons, List.map_cons, List.sum_cons]
    rw [ih, processItem_profit]
    ring

theorem processRecordSeller_sales_count (calcRev : LineItem → Product → ℚ)
    (products : List Product) (r : PurchaseRecord) (s : SellerStat) :
    (processRecordSeller calcRev products r s).sales_count = s.sales_count + 1 := by
  rw [processRecordSeller, foldl_processItem_sales_count]

theorem processRecordSeller_revenue (calcRev : LineItem → Product → ℚ)
    (products : List Product) (r : PurchaseRecord) (s : SellerStat) :
    (processRecordSeller calcRev products r s).revenue = s.revenue + r.total_amount := by
  rw [processRecordSeller, foldl_processItem_revenue]

theorem processRecordSeller_profit (calcRev : LineItem → Product → ℚ)
    (products : List Product) (r : PurchaseRecord) (s : SellerStat) :
    (processRecordSeller calcRev products r s).profit
      = s.profit + recordProfit calcRev products r := by
  rw [processRecordSeller, foldl_processItem_profit, recordProfit]

theorem processRecordSeller_id (calcRev : LineItem → Product → ℚ)
    (products : List Product) (r : PurchaseRecord) (s : SellerStat) :
    (processRecordSeller calcRev products r s).id = s.id := by
  rw [processRecordSeller, foldl_processItem_id]

theorem processRecordSeller_name (calcRev : LineItem → Product → ℚ)
    (products : List Product) (r : PurchaseRecord) (s : SellerStat) :
    (processRecordSeller calcRev products r s).name = s.name := by
  rw [processRecordSeller, foldl_processItem_name]

theorem applyRecords_nil (calcRev : LineItem → Product → ℚ)
    (products : List Product) (s : SellerStat) :
    applyRecords calcRev products [] s = s := rfl

theorem applyRecords_cons (calcRev : LineItem → Product → ℚ)
    (products : List Product) (r : PurchaseRecord) (rs : List PurchaseRecord)
    (s : SellerStat) :
    applyRecords calcRev products (r :: rs) s
      = applyRecords calcRev products rs (processRecordSeller calcRev products r s) := rfl

theorem applyRecords_sales_count (calcRev : LineItem → Product → ℚ)
    (products : List Product) (rs : List PurchaseRecord) (s : SellerStat) :
    (applyRecords calcRev products rs s).sales_count = s.sales_count + rs.length := by
  induction rs generalizing s with
  | nil => rfl
  | cons r rs ih =>
    rw [applyRecords_cons, ih, processRecordSeller_sales_count]
    simp only [List.length_cons]
    omega

theorem applyRecords_revenue (calcRev : LineItem → Product → ℚ)
    (products : List Product) (rs : List PurchaseRecord) (s : SellerStat) :
    (applyRecords calcRev products rs s).revenue
      = s.revenue + (rs.map PurchaseRecord.total_amount).sum := by
  induction rs generalizing s with
  | nil => simp [applyRecords_nil]
  | cons r rs ih =>
    rw [applyRecords_cons, ih, processRecordSeller_revenue]
    simp only [List.map_cons, List.sum_cons]
    ring

theorem applyRecords_profit (calcRev : LineItem → Product → ℚ)
    (products : List Product) (rs : List PurchaseRecord) (s : SellerStat) :
    (applyRecords calcRev products rs s).profit
      = s.profit + (rs.map (recordProfit calcRev products)).sum := by
  induction rs generalizing s with
  | nil => simp [applyRecords_nil]
  | cons r rs ih =>
    rw [applyRecords_cons, ih, processRecordSeller_profit]
    simp only [List.map_cons, List.sum_cons]
    ring

theorem applyRecords_id (calcRev : LineItem → Product → ℚ)
    (products : List Product) (rs : List PurchaseRecord) (s : SellerStat) :
    (applyRecords calcRev products rs s).id = s.id := by
  induction rs generalizing s with
  | nil => rfl
  | cons r rs ih => rw [applyRecords_cons, ih, processRecordSeller_id]

theorem applyRecords_name (calcRev : LineItem → Product → ℚ)
    (products : List Product) (rs : List PurchaseRecord) (s : SellerStat) :
    (applyRecords calcRev products rs s).name = s.name := by
  induction rs generalizing s with
  | nil => rfl
  | cons r rs ih => rw [applyRecords_cons, ih, processRecordSeller_name]

theorem foldl_processRecord_get (calcRev : LineItem → Product → ℚ)
    (products : List Product) (sellers : List Seller) (rs : List PurchaseRecord) :
    ∀ (stats : List SellerStat) (i : ℕ),
    (rs.foldl (processRecord calcRev products sellers) stats)[i]?
      = Option.map (applyRecords calcRev products (recordsFor sellers i rs)) stats[i]? := by
  induction rs with
  | nil =>
    intro stats i
    simp only [List.foldl_nil]
    cases h : stats[i]? with
    | none => simp
    | some s => simp [recordsFor, applyRecords_nil]
  | cons r rs ih =>
    intro stats i
    simp only [List.foldl_cons]
    rw [ih]
    cases hidx : lastIdxWithId sellers r.seller_id with
    | none =>
      have hpr : processRecord calcRev products sellers stats r = stats := by
        simp [processRecord, hidx]
      have hfil : recordsFor sellers i (r :: rs) = recordsFor sellers i rs := by
        simp [recordsFor, List.filter_cons, hidx]
      rw [hpr, hfil]
    | some j =>
      have hpr : processRecord calcRev products sellers stats r
          = modifyIdx (processRecordSeller calcRev products r) stats j := by
        simp [processRecord, hidx]
      rw [hpr]
      by_cases hij : j = i
      · subst hij
        have hfil : recordsFor sellers j (r :: rs) = r :: recordsFor sellers j rs := by
          simp [recordsFor, List.filter_cons, hidx]
        rw [hfil, modifyIdx_get_self]
        cases stats[j]? with
        | none => rfl
        | some s => simp [applyRecords_cons]
      · have hne : i ≠ j := fun hh => hij hh.symm
        rw [modifyIdx_get_ne _ _ hne]
        have hfil : recordsFor sellers i (r :: rs) = recordsFor sellers i rs := by
          simp [recordsFor, List.filter_cons, hidx, hij]
        rw [hfil]

theorem foldl_processRecord_length (calcRev : LineItem → Product → ℚ)
    (products : List Product) (sellers : List Seller) (rs : List PurchaseRecord) :
    ∀ stats : List SellerStat,
    (rs.foldl (processRecord calcRev products sellers) stats).length = stats.length := by
  induction rs with
  | nil => intro stats; rfl
  | cons r rs ih =>
    intro stats
    simp only [List.foldl_cons]
    rw [ih]
    cases hidx : lastIdxWithId sellers r.seller_id with
    | none => simp [processRecord, hidx]
    | some j => simp [processRecord, hidx, modifyIdx_length]

theorem aggregate_get (calcRev : LineItem → Product → ℚ) (data : SalesData) (i : ℕ) :
    (aggregate calcRev data)[i]?
      = Option.map
          (fun s => applyRecords calcRev data.products
            (recordsFor data.sellers i data.purchase_records) (initStat s))
          data.sellers[i]? := by
  rw [aggregate, foldl_processRecord_get, List.getElem?_map]
  cases data.sellers[i]? <;> rfl

theorem aggregate_length (calcRev : LineItem → Product → ℚ) (data : SalesData) :
    (aggregate calcRev data).length = data.sellers.length := by
  rw [aggregate, foldl_processRecord_length, List.length_map]

theorem aggregate_map_id (calcRev : LineItem → Product → ℚ) (data : SalesData) :
    (aggregate calcRev data).map SellerStat.id = data.sellers.map Seller.id := by
  apply List.ext_getElem?
  intro i
  rw [List.getElem?_map, List.getElem?_map, aggregate_get]
  cases data.sellers[i]? with
  | none => rfl
  | some s => simp [applyRecords_id, initStat]

theorem sum_map_modifyIdx_succ (g : α → ℕ) (f : α → α) (hg : ∀ a, g (f a) = g a + 1)
    (l : List α) : ∀ i, i < l.length →
    ((modifyIdx f l i).map g).sum = (l.map g).sum + 1 := by
  induction l with
  | nil => intro i h; simp at h
  | cons a l ih =>
    intro i h
    cases i with
    | zero =>
      simp only [modifyIdx, List.map_cons, List.sum_cons, hg]
      omega
    | succ n =>
      simp only [modifyIdx, List.map_cons, List.sum_cons]
      rw [ih n (Nat.lt_of_succ_lt_succ h)]
      omega

theorem foldl_processRecord_sum_counts (calcRev : LineItem → Product → ℚ)
    (products : List Product) (sellers : List Seller) (rs : List PurchaseRecord) :
    ∀ stats : List SellerStat, stats.length = sellers.length →
    ((rs.foldl (processRecord calcRev products sellers) stats).map
        SellerStat.sales_count).sum
      = (stats.map SellerStat.sales_count).sum + resolvableCount sellers rs := by
  induction rs with
  | nil => intro stats _; simp [resolvableCount]
  | cons r rs ih =>
    intro stats hlen
    simp only [List.foldl_cons]
    cases hidx : lastIdxWithId sellers r.seller_id with
    | none =>
      have hpr : processRecord calcRev products sellers stats r = stats := by
        simp [processRecord, hidx]
      have hres : resolvableCount sellers (r :: rs) = resolvableCount sellers rs := by
        simp [resolvableCount, List.filter_cons, hidx]
      rw [hpr, ih stats hlen, hres]
    | some j =>
      have hj : j < stats.length := hlen ▸ lastIdxWithId_lt hidx
      have hpr : processRecord calcRev products sellers stats r
          = modifyIdx (processRecordSeller calcRev products r) stats j := by
        simp [processRecord, hidx]
      have hres : resolvableCount sellers (r :: rs) = resolvableCount sellers rs + 1 := by
        simp [resolvableCount, List.filter_cons, hidx]
      rw [hpr, ih _ (by rw [modifyIdx_length]; exact hlen)]
      rw [sum_map_modifyIdx_succ _ _
        (fun s => processRecordSeller_sales_count calcRev products r s) stats j hj, hres]
      omega

theorem aggregate_sum_sales_count (calcRev : LineItem → Product → ℚ) (data : SalesData) :
    ((aggregate calcRev data).map SellerStat.sales_count).sum
      = resolvableCount data.sellers data.purchase_records := by
  rw [aggregate,
    foldl_processRecord_sum_counts calcRev data.products data.sellers
      data.purchase_records _ (by simp)]
  have hz : ((data.sellers.map initStat).map SellerStat.sales_count).sum = 0 := by
    rw [List.map_map]
    apply List.sum_eq_zero
    intro x hx
    rcases List.mem_map.1 hx with ⟨s, _, rfl⟩
    rfl
  omega

/-! ### Projection to reports -/

theorem map_enumFrom_proj {β : Type} (f : ℕ → α → β) (g : α → β)
    (h : ∀ i a, f i a = g a) (l : List α) :
    ∀ n : ℕ, (List.enumFrom n l).map (fun p => f p.1 p.2) = l.map g := by
  induction l with
  | nil => intro n; rfl
  | cons a l ih =>
    intro n
    simp only [List.enumFrom, List.map_cons]
    rw [h, ih]

theorem buildReports_map_proj {β : Type} (cb : ℕ → ℕ → SellerStat → ℚ)
    (stats : List SellerStat) (f : SellerReport → β) (g : SellerStat → β)
    (h : ∀ total i s, f (projectSeller cb total i s) = g s) :
    (buildReports cb stats).map f = (sortDescBy SellerStat.profit stats).map g := by
  simp only [buildReports]
  rw [List.map_map, List.enum]
  exact map_enumFrom_proj _ g (fun i a => h _ i a) _ 0

theorem buildReports_length (cb : ℕ → ℕ → SellerStat → ℚ) (stats : List SellerStat) :
    (buildReports cb stats).length = stats.length := by
  simp only [buildReports]
  rw [List.length_map, List.enum_length, sortDescBy_length]

theorem analyzeSalesData_ok (data : SalesData) (opts : Options)
    (cR : LineItem → Product → ℚ) (cB : ℕ → ℕ → SellerStat → ℚ)
    (hcr : opts.calculateRevenue = some cR) (hcb : opts.calculateBonus = some cB)
    (h1 : data.sellers ≠ []) (h2 : data.products ≠ []) (h3 : data.purchase_records ≠ []) :
    analyzeSalesData (some data) (some opts)
      = .ok (buildReports cB (aggregate cR data)) := by
  simp [analyzeSalesData, hcr, hcb, h1, h2, h3]

theorem analyzeSalesData_ok_iff (dataOpt : Option SalesData) (optionsOpt : Option Options) :
    (∃ reports, analyzeSalesData dataOpt optionsOpt = .ok reports) ↔
      ValidInput dataOpt optionsOpt := by
  constructor
  · rintro ⟨reports, hok⟩
    cases dataOpt with
    | none => simp [analyzeSalesData] at hok
    | some data =>
      by_cases h1 : data.sellers = []
      · simp [analyzeSalesData, h1] at hok
      by_cases h2 : data.products = []
      · simp [analyzeSalesData, h2] at hok
      by_cases h3 : data.purchase_records = []
      · simp [analyzeSalesData, h3] at hok
      cases optionsOpt with
      | none => simp [analyzeSalesData, h1, h2, h3] at hok
      | some opts =>
        cases hcr : opts.calculateRevenue with
        | none => simp [analyzeSalesData, h1, h2, h3, hcr] at hok
        | some cR =>
          cases hcb : opts.calculateBonus with
          | none => simp [analyzeSalesData, h1, h2, h3, hcr, hcb] at hok
          | some cB =>
            exact ⟨data, opts, rfl, rfl, h1, h2, h3, by simp [hcr], by simp [hcb]⟩
  · rintro ⟨data, opts, rfl, rfl, h1, h2, h3, hr, hb⟩
    rcases Option.isSome_iff_exists.1 hr with ⟨cR, hcr⟩
    rcases Option.isSome_iff_exists.1 hb with ⟨cB, hcb⟩
    exact ⟨_, analyzeSalesData_ok data opts cR cB hcr hcb h1 h2 h3⟩

/-! ### Skipping unresolved references, duplicate keys -/

theorem foldl_processItem_skip (calcRev : LineItem → Product → ℚ)
    (products : List Product) {bad : LineItem}
    (hbad : productFor products bad.sku = none) (pre post : List LineItem)
    (s : SellerStat) :
    (pre ++ bad :: post).foldl (processItem calcRev products) s
      = (pre ++ post).foldl (processItem calcRev products) s := by
  rw [List.foldl_append, List.foldl_append, List.foldl_cons, processItem_of_none hbad]

theorem processRecordSeller_skip_item (calcRev : LineItem → Product → ℚ)
    (products : List Product) {bad : LineItem}
    (hbad : productFor products bad.sku = none) (r : PurchaseRecord)
    (pre post : List LineItem) (hitems : r.items = pre ++ bad :: post)
    (s : SellerStat) :
    processRecordSeller calcRev products r s
      = processRecordSeller calcRev products { r with items := pre ++ post } s := by
  simp only [processRecordSeller, hitems]
  exact foldl_processItem_skip calcRev products hbad pre post _

theorem addQty_keys (l : List (String × ℚ)) (sku : String) (q : ℚ) :
    (addQty l sku q).map Prod.fst
      = if sku ∈ l.map Prod.fst then l.map Prod.fst
        else l.map Prod.fst ++ [sku] := by
  induction l with
  | nil => simp [addQty]
  | cons kv rest ih =>
    obtain ⟨k, v⟩ := kv
    by_cases h : k = sku
    · subst h
      simp [addQty]
    · rw [show addQty ((k, v) :: rest) sku q = (k, v) :: addQty rest sku q by
        simp [addQty, h]]
      simp only [List.map_cons]
      rw [ih]
      by_cases hm : sku ∈ rest.map Prod.fst
      · rw [if_pos hm, if_pos (by simp [hm])]
      · rw [if_neg hm, if_neg (by simp [hm, Ne.symm h])]
        simp

theorem productFor_eq_filter_getLast (products : List Product) (sku : String) :
    productFor products sku
      = ((products.filter fun p => decide (p.sku = sku)).getLast?) := by
  induction products with
  | nil => rfl
  | cons p rest ih =>
    simp only [List.filter_cons]
    cases hr : productFor rest sku with
    | some q =>
      have hlast : (rest.filter fun p => decide (p.sku = sku)).getLast? = some q := by
        rw [← ih]; exact hr
      have hne : (rest.filter fun p => decide (p.sku = sku)) ≠ [] := by
        intro hnil
        rw [hnil] at hlast
        cases hlast
      obtain ⟨x, xs, hxs⟩ := List.exists_cons_of_ne_nil hne
      by_cases hp : p.sku = sku
      · rw [if_pos (by simpa using hp)]
        rw [productFor, hr, hxs, List.getLast?_cons_cons, ← hxs, hlast]
      · rw [if_neg (by simpa using hp)]
        rw [productFor, hr, hlast]
    | none =>
      have hnil : (rest.filter fun p => decide (p.sku = sku)) = [] := by
        rw [← List.getLast?_eq_none_iff, ← ih]
        exact hr
      by_cases hp : p.sku = sku
      · rw [if_pos (by simpa using hp)]
        rw [productFor, hr, if_pos hp, hnil]
        rfl
      · rw [if_neg (by simpa using hp)]
        rw [productFor, hr, if_neg hp, hnil]
        rfl

theorem productFor_none {products : List Product} {sku : String}
    (h : productFor products sku = none) : ∀ p ∈ products, p.sku ≠ sku := by
  intro p hp hsku
  rw [productFor_eq_filter_getLast, List.getLast?_eq_none_iff] at h
  have : p ∈ products.filter fun p => decide (p.sku = sku) :=
    List.mem_filter.2 ⟨hp, by simpa using hsku⟩
  rw [h] at this
  cases this

theorem lastIdxWithId_none_forall {rest : List Seller} {sid : String}
    (h : lastIdxWithId rest sid = none) : ∀ s ∈ rest, s.id ≠ sid := by
  induction rest with
  | nil => intro s hs; cases hs
  | cons a l ih =>
    rw [lastIdxWithId] at h
    cases hr : lastIdxWithId l sid with
    | some k => rw [hr] at h; cases h
    | none =>
      rw [hr] at h
      by_cases ha : a.id = sid
      · rw [if_pos ha] at h; cases h
      · rw [if_neg ha] at h
        intro s hs
        rcases List.mem_cons.1 hs with rfl | hs
        · exact ha
        · exact ih hr s hs

theorem lastIdxWithId_spec {sellers : List Seller} {sid : String} {i : ℕ}
    (h : lastIdxWithId sellers sid = some i) :
    (∃ s, sellers[i]? = some s ∧ s.id = sid) ∧
      ∀ j s', i < j → sellers[j]? = some s' → s'.id ≠ sid := by
  induction sellers generalizing i with
  | nil => simp [lastIdxWithId] at h
  | cons s rest ih =>
    rw [lastIdxWithId] at h
    cases hr : lastIdxWithId rest sid with
    | some k =>
      rw [hr] at h
      cases h
      obtain ⟨⟨t, ht, htid⟩, hafter⟩ := ih hr
      refine ⟨⟨t, by simpa using ht, htid⟩, ?_⟩
      intro j s' hj hjget
      cases j with
      | zero => omega
      | succ m =>
        exact hafter m s' (Nat.lt_of_succ_lt_succ hj) (by simpa using hjget)
    | none =>
      rw [hr] at h
      by_cases hs : s.id = sid
      · rw [if_pos hs] at h
        cases h
        refine ⟨⟨s, by simp, hs⟩, ?_⟩
        intro j s' hj hjget
        cases j with
        | zero => omega
        | succ m =>
          intro hsid
          have hmem : s' ∈ rest := by
            have := List.getElem?_mem (by simpa using hjget : rest[m]? = some s')
            exact this
          exact lastIdxWithId_none_forall hr s' hmem hsid
      · rw [if_neg hs] at h
        cases h

theorem mem_buildReports_of_mem (cb : ℕ → ℕ → SellerStat → ℚ)
    {stats : List SellerStat} {s : SellerStat}
    (h : s ∈ sortDescBy SellerStat.profit stats) :
    ∃ i, projectSeller cb (sortDescBy SellerStat.profit stats).length i s
        ∈ buildReports cb stats := by
  obtain ⟨i, hi⟩ := List.mem_iff_getElem?.1 h
  refine ⟨i, ?_⟩
  simp only [buildReports]
  refine List.mem_map.2 ⟨(i, s), ?_, rfl⟩
  exact List.mk_mem_enum_iff_getElem?.2 hi

/-- Witness for C1: each branch exercised at a concrete rank among 6 sellers. -/
theorem calculateBonusByProfit_spec_witness :
    calculateBonusByProfit 0 6 (statOfProfit 100) = 100 * (15 / 100) ∧
    calculateBonusByProfit 2 6 (statOfProfit 100) = 100 * (10 / 100) ∧
    calculateBonusByProfit 5 6 (statOfProfit 100) = 0 ∧
    calculateBonusByProfit 3 6 (statOfProfit 100) = 100 * (5 / 100) :=
  ⟨(calculateBonusByProfit_spec 0 6 (statOfProfit 100) (by decide)).1 rfl,
   (calculateBonusByProfit_spec 2 6 (statOfProfit 100) (by decide)).2.1 (Or.inr rfl),
   (calculateBonusByProfit_spec 5 6 (statOfProfit 100) (by decide)).2.2.1 rfl
     (by decide) (by decide) (by decide),
   (calculateBonusByProfit_spec 3 6 (statOfProfit 100) (by decide)).2.2.2.1
     (by decide) (by decide) (by decide) (by decide)⟩

theorem analyzeSalesData_ok_inv {data : SalesData} {opts : Options}
    {reports : List SellerReport} {cR : LineItem → Product → ℚ}
    {cB : ℕ → ℕ → SellerStat → ℚ}
    (hcr : opts.calculateRevenue = some cR) (hcb : opts.calculateBonus = some cB)
    (hok : analyzeSalesData (some data) (some opts) = .ok reports) :
    reports = buildReports cB (aggregate cR data) := by
  by_cases h1 : data.sellers = []
  · simp [analyzeSalesData, h1] at hok
  by_cases h2 : data.products = []
  · simp [analyzeSalesData, h2] at hok
  by_cases h3 : data.purchase_records = []
  · simp [analyzeSalesData, h3] at hok
  rw [analyzeSalesData_ok data opts cR cB hcr hcb h1 h2 h3] at hok
  exact (Except.ok.inj hok).symm

theorem aggregate_dup_init (calcRev : LineItem → Product → ℚ) (data : SalesData)
    (j : ℕ) (s : Seller) (hj : data.sellers[j]? = some s)
    (hdup : ∃ k s', j < k ∧ data.sellers[k]? = some s' ∧ s'.id = s.id) :
    (aggregate calcRev data)[j]? = some (initStat s) := by
  obtain ⟨k, s', hk, hkget, hkid⟩ := hdup
  rw [aggregate_get, hj]
  have hempty : recordsFor data.sellers j data.purchase_records = [] := by
    rw [recordsFor, List.filter_eq_nil_iff]
    intro r _
    simp only [decide_eq_true_eq]
    intro hcontra
    obtain ⟨⟨t, htget, htid⟩, hafter⟩ := lastIdxWithId_spec hcontra
    rw [hj] at htget
    injection htget with hts
    subst hts
    exact hafter k s' hk hkget (hkid.trans htid)
  rw [hempty]
  rfl

/-- **C6.** `analyzeSalesData` fails (with an error, producing no report list)
exactly when the dataset is absent, a collection is missing/empty, the options
bundle is absent, or a strategy is missing; on inputs passing these checks it
completes and returns a report list. -/
theorem validation_spec (dataOpt : Option SalesData) (optionsOpt : Option Options) :
    ((∃ reports, analyzeSalesData dataOpt optionsOpt = Except.ok reports) ↔
      ValidInput dataOpt optionsOpt) ∧
    (¬ ValidInput dataOpt optionsOpt →
      ∃ msg, analyzeSalesData dataOpt optionsOpt = Except.error msg) := by
  refine ⟨analyzeSalesData_ok_iff dataOpt optionsOpt, ?_⟩
  intro hbad
  cases hres : analyzeSalesData dataOpt optionsOpt with
  | error msg => exact ⟨msg, rfl⟩
  | ok reports =>
    exact absurd ((analyzeSalesData_ok_iff dataOpt optionsOpt).1 ⟨reports, hres⟩) hbad

/-- Witness for C6: a missing dataset is rejected with an error. -/
theorem validation_spec_witness :
    ∃ msg, analyzeSalesData none (some optsW) = Except.error msg :=
  (validation_spec none (some optsW)).2 (by rintro ⟨d, o, h, -⟩; cases h)

/-- **C2.** A record with an unresolvable `seller_id` leaves every aggregate
untouched; a line item with an unresolvable `sku` is skipped alone — the
record's `sales_count` and `revenue` credit still happen and its other items
are still processed; neither situation is an error (valid-shaped inputs still
return a report list). -/
theorem dangling_reference_spec :
    (∀ (calcRev : LineItem → Product → ℚ) (products : List Product)
        (sellers : List Seller) (stats : List SellerStat) (r : PurchaseRecord),
      lastIdxWithId sellers r.seller_id = none →
      processRecord calcRev products sellers stats r = stats) ∧
    (∀ (calcRev : LineItem → Product → ℚ) (products : List Product)
        (s : SellerStat) (item : LineItem),
      productFor products item.sku = none →
      processItem calcRev products s item = s) ∧
    (∀ (calcRev : LineItem → Product → ℚ) (products : List Product)
        (r : PurchaseRecord) (bad : LineItem) (pre post : List LineItem)
        (s : SellerStat),
      productFor products bad.sku = none → r.items = pre ++ bad :: post →
      processRecordSeller calcRev products r s
          = processRecordSeller calcRev products { r with items := pre ++ post } s ∧
      (processRecordSeller calcRev products r s).sales_count = s.sales_count + 1 ∧
      (processRecordSeller calcRev products r s).revenue = s.revenue + r.total_amount) ∧
    (∀ dataOpt optionsOpt, ValidInput dataOpt optionsOpt →
      ∃ reports, analyzeSalesData dataOpt optionsOpt = Except.ok reports) := by
  refine ⟨?_, ?_, ?_, ?_⟩
  · intro calcRev products sellers stats r h
    simp [processRecord, h]
  · intro calcRev products s item h
    exact processItem_of_none h s
  · intro calcRev products r bad pre post s hbad hitems
    exact ⟨processRecordSeller_skip_item calcRev products hbad r pre post hitems s,
      processRecordSeller_sales_count calcRev products r s,
      processRecordSeller_revenue calcRev products r s⟩
  · intro dataOpt optionsOpt hvalid
    exact (analyzeSalesData_ok_iff dataOpt optionsOpt).2 hvalid

/-- Witness for C2: a record naming the unknown seller `"zz"` changes nothing;
an item naming the unknown sku `"qq"` changes nothing; the record containing
it still counts once with its full `total_amount`; the well-formed fixture
dataset is processed without error. -/
theorem dangling_reference_spec_witness :
    processRecord calculateSimpleRevenue [productW] [sellerW] [initStat sellerW]
        { seller_id := "zz", total_amount := 5, items := [] }
      = [initStat sellerW] ∧
    processItem calculateSimpleRevenue [productW] (initStat sellerW)
        { sku := "qq", sale_price := 1, quantity := 1, discount := 0 }
      = initStat sellerW ∧
    (processRecordSeller calculateSimpleRevenue [productW]
        { seller_id := "s1", total_amount := 7,
          items := [{ sku := "qq", sale_price := 1, quantity := 1, discount := 0 }] }
        (initStat sellerW)).sales_count = (initStat sellerW).sales_count + 1 ∧
    (∃ reports, analyzeSalesData (some dataW) (some optsW) = Except.ok reports) := by
  refine ⟨?_, ?_, ?_, ?_⟩
  · exact dangling_reference_spec.1 calculateSimpleRevenue [productW] [sellerW]
      [initStat sellerW] _ (by decide)
  · exact dangling_reference_spec.2.1 calculateSimpleRevenue [productW]
      (initStat sellerW) _ (by decide)
  · exact (dangling_reference_spec.2.2.1 calculateSimpleRevenue [productW]
      { seller_id := "s1", total_amount := 7,
        items := [{ sku := "qq", sale_price := 1, quantity := 1, discount := 0 }] }
      { sku := "qq", sale_price := 1, quantity := 1, discount := 0 } [] []
      (initStat sellerW) (by decide) rfl).2.1
  · exact dangling_reference_spec.2.2.2 (some dataW) (some optsW)
      ⟨dataW, optsW, rfl, rfl, by simp [dataW], by simp [dataW], by simp [dataW],
        rfl, rfl⟩

/-- **C3.** For a resolved line item the aggregator adds exactly
`calculateRevenue(item, product) - purchase_price * quantity` to the seller's
profit (and nothing else); a seller's accumulated profit is the sum of those
contributions over its attributed records; the default strategy returns
`sale_price * quantity * (1 - discount / 100)`. -/
theorem profit_accumulation_spec :
    (∀ (calcRev : LineItem → Product → ℚ) (products : List Product)
        (item : LineItem) (p : Product),
      productFor products item.sku = some p →
      ∀ s : SellerStat,
        processItem calcRev products s item
          = { s with
              profit := s.profit + (calcRev item p - p.purchase_price * item.quantity)
              products_sold := addQty s.products_sold item.sku item.quantity }) ∧
    (∀ (calcRev : LineItem → Product → ℚ) (data : SalesData) (i : ℕ)
        (st : SellerStat),
      (aggregate calcRev data)[i]? = some st →
      st.profit = ((recordsFor data.sellers i data.purchase_records).map
          (recordProfit calcRev data.products)).sum) ∧
    (∀ (calcRev : LineItem → Product → ℚ) (products : List Product)
        (r : PurchaseRecord),
      recordProfit calcRev products r
        = (r.items.map (itemProfit calcRev products)).sum) ∧
    (∀ (calcRev : LineItem → Product → ℚ) (products : List Product)
        (item : LineItem) (p : Product),
      productFor products item.sku = some p →
      itemProfit calcRev products item
        = calcRev item p - p.purchase_price * item.quantity) ∧
    (∀ (purchase : LineItem) (_product : Product),
      calculateSimpleRevenue purchase _product
        = purchase.sale_price * purchase.quantity * (1 - purchase.discount / 100)) := by
  refine ⟨?_, ?_, fun _ _ _ => rfl, ?_, fun _ _ => rfl⟩
  · intro calcRev products item p h s
    exact processItem_of_some h s
  · intro calcRev data i st h
    rw [aggregate_get] at h
    cases hs : data.sellers[i]? with
    | none => rw [hs] at h; cases h
    | some s =>
      rw [hs] at h
      injection h with h'
      rw [← h', applyRecords_profit]
      simp [initStat]
  · intro calcRev products item p h
    rw [itemProfit, h]

/-- Witness for C3: the resolved fixture item credits exactly
`calcRev - cost`, and the fixture seller's profit is the sum over its
attributed records. -/
theorem profit_accumulation_spec_witness :
    (processItem calculateSimpleRevenue [productW] (initStat sellerW) itemW
      = { initStat sellerW with
          profit := (initStat sellerW).profit
            + (calculateSimpleRevenue itemW productW
                - productW.purchase_price * itemW.quantity)
          products_sold :=
            addQty (initStat sellerW).products_sold itemW.sku itemW.quantity }) ∧
    (applyRecords calculateSimpleRevenue dataW.products
        (recordsFor dataW.sellers 0 dataW.purchase_records)
        (initStat sellerW)).profit
      = ((recordsFor dataW.sellers 0 dataW.purchase_records).map
          (recordProfit calculateSimpleRevenue dataW.products)).sum := by
  constructor
  · exact profit_accumulation_spec.1 calculateSimpleRevenue [productW] itemW productW
      rfl (initStat sellerW)
  · exact profit_accumulation_spec.2.1 calculateSimpleRevenue dataW 0 _
      (by rw [aggregate_get]; rfl)

/-- **C8.** A seller's pre-rounding revenue is the sum of `total_amount` over
exactly its attributed records, and is independent of the injected
`calculateRevenue` strategy (which feeds only profit). -/
theorem revenue_verbatim_spec :
    (∀ (calcRev : LineItem → Product → ℚ) (data : SalesData) (i : ℕ)
        (st : SellerStat),
      (aggregate calcRev data)[i]? = some st →
      st.revenue = ((recordsFor data.sellers i data.purchase_records).map
          PurchaseRecord.total_amount).sum) ∧
    (∀ (f g : LineItem → Product → ℚ) (data : SalesData),
      (aggregate f data).map SellerStat.revenue
        = (aggregate g data).map SellerStat.revenue) := by
  constructor
  · intro calcRev data i st h
    rw [aggregate_get] at h
    cases hs : data.sellers[i]? with
    | none => rw [hs] at h; cases h
    | some s =>
      rw [hs] at h
      injection h with h'
      rw [← h', applyRecords_revenue]
      simp [initStat]
  · intro f g data
    apply List.ext_getElem?
    intro i
    rw [List.getElem?_map, List.getElem?_map, aggregate_get, aggregate_get]
    cases hs : data.sellers[i]? with
    | none => rfl
    | some s => simp [applyRecords_revenue]

/-- Witness for C8: the fixture seller's revenue equals the sum of the
attributed records' `total_amount`. -/
theorem revenue_verbatim_spec_witness :
    (applyRecords calculateSimpleRevenue dataW.products
        (recordsFor dataW.sellers 0 dataW.purchase_records)
        (initStat sellerW)).revenue
      = ((recordsFor dataW.sellers 0 dataW.purchase_records).map
          PurchaseRecord.total_amount).sum :=
  revenue_verbatim_spec.1 calculateSimpleRevenue dataW 0 _ (by rw [aggregate_get]; rfl)

/-- **C9.** A seller's `sales_count` is the number of its attributed records
(one per record, independent of item count), and the total over the output
equals the number of records with a resolvable seller identifier. -/
theorem sales_count_conservation_spec :
    (∀ (calcRev : LineItem → Product → ℚ) (data : SalesData) (i : ℕ)
        (st : SellerStat),
      (aggregate calcRev data)[i]? = some st →
      st.sales_count = (recordsFor data.sellers i data.purchase_records).length) ∧
    (∀ (data : SalesData) (opts : Options) (reports : List SellerReport)
        (cR : LineItem → Product → ℚ) (cB : ℕ → ℕ → SellerStat → ℚ),
      opts.calculateRevenue = some cR → opts.calculateBonus = some cB →
      analyzeSalesData (some data) (some opts) = Except.ok reports →
      (reports.map SellerReport.sales_count).sum
        = resolvableCount data.sellers data.purchase_records) := by
  constructor
  · intro calcRev data i st h
    rw [aggregate_get] at h
    cases hs : data.sellers[i]? with
    | none => rw [hs] at h; cases h
    | some s =>
      rw [hs] at h
      injection h with h'
      rw [← h', applyRecords_sales_count]
      simp [initStat]
  · intro data opts reports cR cB hcr hcb hok
    rw [analyzeSalesData_ok_inv hcr hcb hok]
    rw [buildReports_map_proj cB (aggregate cR data) SellerReport.sales_count
      SellerStat.sales_count (fun _ _ _ => rfl)]
    have hperm := (sortDescBy_perm SellerStat.profit (aggregate cR data)).map
      SellerStat.sales_count
    rw [hperm.sum_eq]
    exact aggregate_sum_sales_count cR data

/-- Witness for C9: on the fixture dataset the output counts sum to the
number of resolvable records. -/
theorem sales_count_conservation_spec_witness :
    ((buildReports calculateBonusByProfit
        (aggregate calculateSimpleRevenue dataW)).map SellerReport.sales_count).sum
      = resolvableCount dataW.sellers dataW.purchase_records :=
  sales_count_conservation_spec.2 dataW optsW _ calculateSimpleRevenue
    calculateBonusByProfit rfl rfl
    (analyzeSalesData_ok dataW optsW _ _ rfl rfl (by simp [dataW]) (by simp [dataW])
      (by simp [dataW]))

/-- **C4.** The output has exactly one report per input seller, adjacent
reports have non-increasing profit, and the underlying sort is stable: the
equal-profit aggregates keep their input order, which is the input seller
order. -/
theorem ranking_spec (data : SalesData) (opts : Options) (reports : List SellerReport)
    (cR : LineItem → Product → ℚ) (cB : ℕ → ℕ → SellerStat → ℚ)
    (hcr : opts.calculateRevenue = some cR) (hcb : opts.calculateBonus = some cB)
    (hok : analyzeSalesData (some data) (some opts) = Except.ok reports) :
    reports.length = data.sellers.length ∧
    List.Perm (reports.map SellerReport.seller_id) (data.sellers.map Seller.id) ∧
    List.Chain' (fun a b : SellerReport => b.profit ≤ a.profit) reports ∧
    (∀ q : ℚ,
      (sortDescBy SellerStat.profit (aggregate cR data)).filter
          (fun s => decide (s.profit = q))
        = (aggregate cR data).filter (fun s => decide (s.profit = q))) ∧
    (aggregate cR data).map SellerStat.id = data.sellers.map Seller.id := by
  have hrep := analyzeSalesData_ok_inv hcr hcb hok
  subst hrep
  refine ⟨?_, ?_, ?_, fun q => sortDescBy_filter _ q _, aggregate_map_id cR data⟩
  · rw [buildReports_length, aggregate_length]
  · have hmap : (buildReports cB (aggregate cR data)).map SellerReport.seller_id
        = (sortDescBy SellerStat.profit (aggregate cR data)).map SellerStat.id :=
      buildReports_map_proj cB (aggregate cR data) SellerReport.seller_id
        SellerStat.id (fun _ _ _ => rfl)
    rw [hmap]
    have hperm :=
      (sortDescBy_perm SellerStat.profit (aggregate cR data)).map SellerStat.id
    exact (aggregate_map_id cR data) ▸ hperm
  · have hmap : (buildReports cB (aggregate cR data)).map SellerReport.profit
        = (sortDescBy SellerStat.profit (aggregate cR data)).map
            (fun s => toFixed2 s.profit) :=
      buildReports_map_proj cB (aggregate cR data) SellerReport.profit
        (fun s => toFixed2 s.profit) (fun _ _ _ => rfl)
    refine (List.chain'_map (R := fun x y : ℚ => y ≤ x) SellerReport.profit).1 ?_
    rw [hmap]
    refine (List.chain'_map (R := fun x y : ℚ => y ≤ x) _).2 ?_
    exact (sortDescBy_chain SellerStat.profit _).imp
      (fun _ _ h => toFixed2_mono h)

/-- Witness for C4: length and id-permutation on the fixture dataset. -/
theorem ranking_spec_witness :
    (buildReports calculateBonusByProfit
        (aggregate calculateSimpleRevenue dataW)).length = dataW.sellers.length ∧
    List.Perm ((buildReports calculateBonusByProfit
        (aggregate calculateSimpleRevenue dataW)).map SellerReport.seller_id)
      (dataW.sellers.map Seller.id) := by
  have h := ranking_spec dataW optsW _ calculateSimpleRevenue calculateBonusByProfit
    rfl rfl
    (analyzeSalesData_ok dataW optsW _ _ rfl rfl (by simp [dataW]) (by simp [dataW])
      (by simp [dataW]))
  exact ⟨h.1, h.2.1⟩

/-- **C5.** `top_products` is the seller's `products_sold` mapping (kept in
first-encounter sku order) converted to `{sku, quantity}` pairs, stable-sorted
by descending quantity, truncated to at most 10 entries. -/
theorem top_products_spec :
    (∀ s : SellerStat,
      topProductsOf s
        = (sortDescBy TopProduct.quantity
            (s.products_sold.map fun kv => TopProduct.mk kv.1 kv.2)).take 10) ∧
    (∀ s : SellerStat, (topProductsOf s).length ≤ 10) ∧
    (∀ s : SellerStat,
      (topProductsOf s).Chain' (fun a b => b.quantity ≤ a.quantity)) ∧
    (∀ (l : List TopProduct) (q : ℚ),
      (sortDescBy TopProduct.quantity l).filter (fun t => decide (t.quantity = q))
        = l.filter (fun t => decide (t.quantity = q))) ∧
    (∀ (ps : List (String × ℚ)) (sku : String) (q : ℚ),
      (addQty ps sku q).map Prod.fst
        = if sku ∈ ps.map Prod.fst then ps.map Prod.fst
          else ps.map Prod.fst ++ [sku]) ∧
    (∀ (cb : ℕ → ℕ → SellerStat → ℚ) (stats : List SellerStat),
      (buildReports cb stats).map SellerReport.top_products
        = (sortDescBy SellerStat.profit stats).map topProductsOf) := by
  refine ⟨fun s => rfl, ?_, ?_, fun l q => sortDescBy_filter _ q l, addQty_keys, ?_⟩
  · intro s
    exact List.length_take_le 10 _
  · intro s
    have hp := sortDescBy_pairwise TopProduct.quantity
      (s.products_sold.map fun kv => TopProduct.mk kv.1 kv.2)
    exact (hp.sublist (List.take_sublist 10 _)).chain'
  · intro cb stats
    exact buildReports_map_proj cb stats SellerReport.top_products topProductsOf
      (fun _ _ _ => rfl)

/-- **C7.** The projector rounds revenue, profit and bonus with
`+v.toFixed(2)` and passes `sales_count` and `top_products` through; the
rounding keeps exactly two decimals, is odd-symmetric (so half-away-from-zero),
equals half-up on non-negative values, and moves a value by at most `1/200`. -/
theorem rounding_spec :
    (∀ (cb : ℕ → ℕ → SellerStat → ℚ) (total i : ℕ) (s : SellerStat),
      projectSeller cb total i s
        = { seller_id := s.id, name := s.name, revenue := toFixed2 s.revenue
            profit := toFixed2 s.profit, sales_count := s.sales_count
            top_products := topProductsOf s, bonus := toFixed2 (cb i total s) }) ∧
    (∀ v : ℚ, 0 ≤ v → toFixed2 v = (⌊v * 100 + 1 / 2⌋ : ℚ) / 100) ∧
    (∀ v : ℚ, toFixed2 (-v) = -toFixed2 v) ∧
    (∀ v : ℚ, ∃ n : ℤ, toFixed2 v = (n : ℚ) / 100) ∧
    (∀ v : ℚ, |toFixed2 v - v| ≤ 1 / 200) :=
  ⟨fun _ _ _ _ => rfl, fun _ hv => toFixed2_of_nonneg hv, toFixed2_neg,
   toFixed2_hundredths, toFixed2_close⟩

/-- Witness for C7: `100/3 = 33.333…` is rounded via the non-negative
half-up formula. -/
theorem rounding_spec_witness :
    (0 : ℚ) ≤ 100 / 3 ∧
    toFixed2 (100 / 3) = (⌊(100 / 3 : ℚ) * 100 + 1 / 2⌋ : ℚ) / 100 :=
  ⟨by norm_num, rounding_spec.2.1 (100 / 3) (by norm_num)⟩

/-- **C10.** Both indexes are last-entry-wins: the seller index resolves to
the last seller with a given id and the product index to the last product
with a given sku; aggregates accumulate on that last duplicate, while an
earlier duplicate seller keeps its zero-initialised aggregate and still
yields an output record with zero revenue, profit and count and no top
products. -/
theorem duplicate_last_wins_spec :
    (∀ (sellers : List Seller) (sid : String) (i : ℕ),
      lastIdxWithId sellers sid = some i →
      (∃ s, sellers[i]? = some s ∧ s.id = sid) ∧
        ∀ j s', i < j → sellers[j]? = some s' → s'.id ≠ sid) ∧
    (∀ (sellers : List Seller) (sid : String),
      lastIdxWithId sellers sid = none → ∀ s ∈ sellers, s.id ≠ sid) ∧
    (∀ (products : List Product) (sku : String),
      productFor products sku
        = ((products.filter fun p => decide (p.sku = sku)).getLast?)) ∧
    (∀ (calcRev : LineItem → Product → ℚ) (data : SalesData) (j : ℕ) (s : Seller),
      data.sellers[j]? = some s →
      (∃ k s', j < k ∧ data.sellers[k]? = some s' ∧ s'.id = s.id) →
      (aggregate calcRev data)[j]? = some (initStat s)) ∧
    (∀ (data : SalesData) (opts : Options) (reports : List SellerReport)
        (cR : LineItem → Product → ℚ) (cB : ℕ → ℕ → SellerStat → ℚ)
        (j : ℕ) (s : Seller),
      opts.calculateRevenue = some cR → opts.calculateBonus = some cB →
      analyzeSalesData (some data) (some opts) = Except.ok reports →
      data.sellers[j]? = some s →
      (∃ k s', j < k ∧ data.sellers[k]? = some s' ∧ s'.id = s.id) →
      ∃ rep ∈ reports, rep.seller_id = s.id ∧ rep.revenue = 0 ∧ rep.profit = 0 ∧
        rep.sales_count = 0 ∧ rep.top_products = []) := by
  refine ⟨fun _ _ _ h => lastIdxWithId_spec h,
    fun _ _ h => lastIdxWithId_none_forall h,
    productFor_eq_filter_getLast, aggregate_dup_init, ?_⟩
  intro data opts reports cR cB j s hcr hcb hok hj hdup
  have hrep := analyzeSalesData_ok_inv hcr hcb hok
  subst hrep
  have hstat : (aggregate cR data)[j]? = some (initStat s) :=
    aggregate_dup_init cR data j s hj hdup
  have hmem : initStat s ∈ aggregate cR data := List.getElem?_mem hstat
  have hmem2 : initStat s ∈ sortDescBy SellerStat.profit (aggregate cR data) :=
    ((sortDescBy_perm SellerStat.profit (aggregate cR data)).mem_iff).2 hmem
  obtain ⟨i, hi⟩ := mem_buildReports_of_mem cB hmem2
  refine ⟨projectSeller cB
      (sortDescBy SellerStat.profit (aggregate cR data)).length i (initStat s),
    hi, rfl, ?_, ?_, rfl, rfl⟩
  · show toFixed2 (initStat s).revenue = 0
    simp [initStat, toFixed2_zero]
  · show toFixed2 (initStat s).profit = 0
    simp [initStat, toFixed2_zero]

/-- Witness for C10: with two sellers sharing id `"a"`, the earlier one keeps
its zero aggregate (everything accumulated on the later duplicate). -/
theorem duplicate_last_wins_spec_witness :
    (aggregate calculateSimpleRevenue dataDupW)[0]?
      = some (initStat { id := "a", first_name := "x", last_name := "y" }) :=
  duplicate_last_wins_spec.2.2.2.1 calculateSimpleRevenue dataDupW 0
    { id := "a", first_name := "x", last_name := "y" } rfl
    ⟨1, { id := "a", first_name := "z", last_name := "w" }, by norm_num, rfl, rfl⟩

end SalesBonus
